import Mathlib

/-!
Verification of the LSAT practice-question tool (src/tool.py): a shallow
embedding of its keyword classifier, question bank, and randomized exam
composer, together with theorems settling the specification's claims.

Randomness: the Python code draws from the global `random` generator
(`random.sample`, `random.shuffle`), a deterministic PRNG once seeded.  The
embedding threads an explicit generator state (`Nat`) through every random
operation; `sample` models `random.sample` (selection without replacement)
and `shuffle` models `random.shuffle` (a permutation of its input).
-/

/-- A question record: the JSON objects `{"text": ..., "type": ..., "source": ...}`
stored in the bank (src/tool.py line 132). -/
structure QuestionRecord where
  text : String
  type : String
  source : String
deriving DecidableEq

/-- The classification taxonomy `QUESTION_TYPES` (src/tool.py lines 20-41):
sections in declared order, each with its categories and keyword lists in
declared order (Python dicts preserve insertion order). -/
def QUESTION_TYPES : List (String × List (String × List String)) :=
  [("LR",
    [("Strengthen", ["strengthen", "support"]),
     ("Weaken", ["weaken", "undermine"]),
     ("Assumption", ["assume", "assumption"]),
     ("Flaw", ["flaw", "error", "mistake"]),
     ("Inference", ["infer", "inference", "follows"]),
     ("Principle", ["principle"]),
     ("Parallel Reasoning", ["parallel"]),
     ("Paradox", ["paradox"]),
     ("Method of Reasoning", ["method of reasoning", "method"])]),
   ("RC",
    [("Main Point", ["main point", "primary purpose"]),
     ("Author\x27s Attitude", ["author\x27s attitude", "tone"]),
     ("Inference", ["infer", "inference"]),
     ("Function", ["function of"]),
     ("Detail", ["detail", "mention"]),
     ("Analogy", ["analogy"]),
     ("Structure", ["structure", "organized"])])]

/-- Dictionary access `QUESTION_TYPES[sec]` (the code only ever uses existing
keys; a missing key would raise `KeyError` in Python, here it yields `[]`). -/
def sectionCats (sec : String) : List (String × List String) :=
  ((QUESTION_TYPES.find? (fun p => p.1 == sec)).map (fun p => p.2)).getD []

/-- `text.lower()`: character-wise lower-casing (ASCII semantics). -/
def lowerStr (s : String) : String := String.mk (s.data.map Char.toLower)

/-- Whether `kw` occurs at the start of `l`. -/
def startsKw : List Char → List Char → Bool
  | [], _ => true
  | _ :: _, [] => false
  | k :: ks, c :: cs => k == c && startsKw ks cs

/-- Whether `kw` occurs as a contiguous substring of `l`: Python's `kw in s`. -/
def hasSubstr (kw : List Char) : List Char → Bool
  | [] => startsKw kw []
  | c :: cs => startsKw kw (c :: cs) || hasSubstr kw cs

/-- `kw in lc_text` on strings. -/
def kwMatch (kw : String) (lc : String) : Bool := hasSubstr kw.data lc.data

/-- One classification loop (src/tool.py lines 75-77 and 79-81): scan the
categories in order, return the first whose keyword list has ANY keyword
occurring in the lower-cased text. -/
def classifyIn : List (String × List String) → String → Option String
  | [], _ => none
  | p :: rest, lc =>
      if p.2.any (fun kw => kwMatch kw lc) then some p.1 else classifyIn rest lc

/-- `classify_question` (src/tool.py lines 72-82): lower-case, scan LR
categories, then RC categories, else "Unknown". -/
def classify_question (text : String) : String :=
  let lc := lowerStr text
  match classifyIn (sectionCats "LR") lc with
  | some t => t
  | none =>
      match classifyIn (sectionCats "RC") lc with
      | some t => t
      | none => "Unknown"

/-- The classifier as the spec words it: one global ordered scan of the whole
taxonomy (LR categories then RC categories), first match wins, else
"Unknown".  Stated separately from `classify_question` so the two can be
compared. -/
def classifySpec (text : String) : String :=
  let lc := lowerStr text
  match (sectionCats "LR" ++ sectionCats "RC").find?
      (fun p => p.2.any (fun kw => kwMatch kw lc)) with
  | some p => p.1
  | none => "Unknown"

/-- One step of a linear congruential generator: one draw from the Python
PRNG (`random`), which is a deterministic function of its state. -/
def lcgNext (g : Nat) : Nat × Nat :=
  let g2 := (g * 1103515245 + 12345) % 2147483648
  (g2 / 65536, g2)

/-- `random.sample(l, k)`: `k` elements drawn uniformly without replacement
(the code only ever calls it with `k ≤ l.length`; larger `k` exhausts the
list, where Python would raise). -/
def sample {α : Type} : List α → Nat → Nat → List α × Nat
  | _, 0, g => ([], g)
  | [], _ + 1, g => ([], g)
  | x :: xs, k + 1, g =>
      let p := lcgNext g
      let i := p.1 % (xs.length + 1)
      let chosen := (x :: xs).getD i x
      let rest := sample ((x :: xs).eraseIdx i) k p.2
      (chosen :: rest.1, rest.2)

/-- `random.shuffle(l)`: a uniformly random permutation of `l`. -/
def shuffle {α : Type} (l : List α) (g : Nat) : List α × Nat :=
  sample l l.length g

/-- Category labels of a section, in declared order: `list(QUESTION_TYPES[section].keys())`
(src/tool.py line 93). -/
def sectionTypes (sec : String) : List String :=
  (sectionCats sec).map (fun p => p.1)

/-- The shortage warning of src/tool.py line 102, naming the category, the
needed count and the available count. -/
def shortageWarning (qtype : String) (needed avail : Nat) : String :=
  "Not enough " ++ qtype ++ " questions: needed " ++ toString needed ++
    ", available " ++ toString avail

/-- `counts[t] += 1` on an association list keyed like the Python dict. -/
def bump (counts : List (String × Nat)) (t : String) : List (String × Nat) :=
  counts.map (fun p => if p.1 == t then (p.1, p.2 + 1) else p)

/-- Lines 95-98 of src/tool.py: `base, rem = divmod(total, len(types))`,
`counts = {t: base for t in types}`, then `counts[t] += 1` for each `t` in
`random.sample(types, rem)`. -/
def allocCounts (types : List String) (total : Nat) (g : Nat) :
    List (String × Nat) × Nat :=
  let base := total / types.length
  let rem := total % types.length
  let s := sample types rem g
  (s.1.foldl bump (types.map (fun t => (t, base))), s.2)

/-- Lines 100-103 of src/tool.py for one category: gather candidates, warn on
shortage, and select `min cnt (len candidates)` records without replacement.
The middle component is the list of emitted warnings. -/
def pickCategory (pool : List QuestionRecord) (qtype : String) (cnt : Nat)
    (g : Nat) : List QuestionRecord × List String × Nat :=
  let candidates := pool.filter (fun q => q.type == qtype)
  let warns := if candidates.length < cnt
    then [shortageWarning qtype cnt candidates.length] else []
  let s := sample candidates (min cnt candidates.length) g
  (s.1, warns, s.2)

/-- The `for qtype, cnt in counts.items()` loop (lines 99-103), accumulating
selections and warnings in order. -/
def pickCounts (pool : List QuestionRecord) :
    List (String × Nat) → Nat → List QuestionRecord × List String × Nat
  | [], g => ([], [], g)
  | tc :: rest, g =>
      let r1 := pickCategory pool tc.1 tc.2 g
      let r2 := pickCounts pool rest r1.2.2
      (r1.1 ++ r2.1, r1.2.1 ++ r2.2.1, r2.2.2)

/-- One iteration of the section loop (lines 92-103): restrict the bank to
the section's eligible pool, allocate per-category counts, then select. -/
def pickSection (bank : List QuestionRecord) (sec : String) (total : Nat)
    (g : Nat) : List QuestionRecord × List String × Nat :=
  let types := sectionTypes sec
  let sectionQuestions := bank.filter (fun q => types.contains q.type)
  let a := allocCounts types total g
  pickCounts sectionQuestions a.1 a.2

/-- The full selection loop over the structure (lines 91-103). -/
def composeSelected (struct : List (String × Nat)) (bank : List QuestionRecord)
    (g : Nat) : List QuestionRecord × List String × Nat :=
  match struct with
  | [] => ([], [], g)
  | st :: rest =>
      let r1 := pickSection bank st.1 st.2 g
      let r2 := composeSelected rest bank r1.2.2
      (r1.1 ++ r2.1, r1.2.1 ++ r2.2.1, r2.2.2)

/-- Selection followed by the final `random.shuffle(selected)` (line 104):
the composed exam as an ordered list of records, with emitted warnings. -/
def compose (struct : List (String × Nat)) (bank : List QuestionRecord)
    (g : Nat) : List QuestionRecord × List String × Nat :=
  let r := composeSelected struct bank g
  let s := shuffle r.1 r.2.2
  (s.1, r.2.1, s.2)

/-- Line 107: one rendered exam item. -/
def renderItem (i : Nat) (q : QuestionRecord) : String :=
  "Q" ++ toString i ++ " [" ++ q.type ++ "] (" ++ q.source ++ "):\n" ++
    q.text.trim ++ "\n"

/-- `generate_exam_text` (src/tool.py lines 90-108): compose, then render the
shuffled selection as numbered items joined by blank lines. -/
def generate_exam_text (struct : List (String × Nat))
    (bank : List QuestionRecord) (g : Nat) : String × List String × Nat :=
  let c := compose struct bank g
  (String.intercalate "\n" (c.1.enum.map (fun p => renderItem (p.1 + 1) p.2)),
    c.2.1, c.2.2)

/-- Sum of the per-category allocation values. -/
def sumCounts (counts : List (String × Nat)) : Nat :=
  (counts.map (fun p => p.2)).sum

/-- The selected-or-available count for one category entry. -/
def minAvail (pool : List QuestionRecord) (tc : String × Nat) : Nat :=
  min tc.2 (pool.filter (fun q => q.type == tc.1)).length

/-- A synthetic record of a given category. -/
def mkRec (t : String) (i : Nat) : QuestionRecord :=
  ⟨t ++ toString i, t, "file"⟩

/-- A bank with exactly 3 records in every LR category. -/
def bank27 : List QuestionRecord :=
  ((sectionTypes "LR").map (fun t => mkRec t 1))
    ++ ((sectionTypes "LR").map (fun t => mkRec t 2))
    ++ ((sectionTypes "LR").map (fun t => mkRec t 3))

/-- The ingestion duplicate check of src/tool.py lines 133-137: append the
entry only when no existing record has exactly the same text; the Boolean
reports whether the add was skipped as a duplicate (flashed to the user). -/
def addEntry (bank : List QuestionRecord) (entry : QuestionRecord) :
    List QuestionRecord × Bool :=
  if bank.any (fun e => e.text == entry.text) then (bank, true)
  else (bank ++ [entry], false)

/-- A JSON value, as far as the bank file format uses JSON. -/
inductive JVal where
  | jstr (s : String)
  | jarr (xs : List JVal)
  | jobj (fields : List (String × JVal))

/-- The JSON object `json.dump` writes for one record (src/tool.py lines
85-87 and 132). -/
def encodeRecord (q : QuestionRecord) : JVal :=
  .jobj [("text", .jstr q.text), ("type", .jstr q.type),
    ("source", .jstr q.source)]

/-- The JSON document `save_bank` writes: the array of record objects. -/
def encodeBank (bank : List QuestionRecord) : JVal :=
  .jarr (bank.map encodeRecord)

/-- Reading one record object back. -/
def decodeRecord : JVal → Option QuestionRecord
  | .jobj [("text", .jstr t), ("type", .jstr ty), ("source", .jstr src)] =>
      some ⟨t, ty, src⟩
  | _ => none

def decodeRecords : List JVal → Option (List QuestionRecord)
  | [] => some []
  | v :: vs =>
      match decodeRecord v, decodeRecords vs with
      | some q, some qs => some (q :: qs)
      | _, _ => none

def decodeBank : JVal → Option (List QuestionRecord)
  | .jarr xs => decodeRecords xs
  | _ => none

/-- The persisted store as the startup code observes it: the bank file may
be absent, present but not JSON-decodable (`json.JSONDecodeError`), or
decoded into a record list. -/
inductive StoreState where
  | absent
  | corrupt
  | wellFormed (records : List QuestionRecord)
deriving DecidableEq

/-- Bank loading at startup (src/tool.py lines 51-59): a missing file and a
`JSONDecodeError` both yield the empty bank.  The second component collects
the log messages emitted by this code path — the source contains no logging
call there, so none are ever emitted. -/
def loadBank : StoreState → List QuestionRecord × List String
  | .absent => ([], [])
  | .corrupt => ([], [])
  | .wellFormed rs => (rs, [])

/-- `save_bank` (src/tool.py lines 85-87): serialize the whole bank,
overwriting the store; the `json` module is modelled as a faithful codec, so
the resulting store decodes to exactly the written records. -/
def save_bank (bank : List QuestionRecord) : StoreState :=
  .wellFormed bank

/-- A single record classified "Inference". -/
def infRec : QuestionRecord := ⟨"what follows", "Inference", "file"⟩

theorem classifyIn_eq_find (cats : List (String × List String)) (lc : String) :
    classifyIn cats lc =
      (cats.find? (fun p => p.2.any (fun kw => kwMatch kw lc))).map (fun p => p.1) := by
  induction cats with
  | nil => rfl
  | cons p rest ih =>
      by_cases h : (p.2.any (fun kw => kwMatch kw lc)) = true
      · simp [classifyIn, List.find?_cons, h]
      · simp only [Bool.not_eq_true] at h
        simp [classifyIn, List.find?_cons, h, ih]

theorem startsKw_subset (kw l : List Char) (h : startsKw kw l = true) :
    ∀ c ∈ kw, c ∈ l := by
  induction kw generalizing l with
  | nil => intro c hc; cases hc
  | cons k ks ih =>
      cases l with
      | nil => simp [startsKw] at h
      | cons a as =>
          simp only [startsKw, Bool.and_eq_true, beq_iff_eq] at h
          intro c hc
          rcases List.mem_cons.mp hc with hck | hck
          · exact List.mem_cons.mpr (Or.inl (hck.trans h.1))
          · exact List.mem_cons.mpr (Or.inr (ih as h.2 c hck))

theorem hasSubstr_subset (kw l : List Char) (h : hasSubstr kw l = true) :
    ∀ c ∈ kw, c ∈ l := by
  induction l with
  | nil =>
      intro c hc
      cases kw with
      | nil => cases hc
      | cons k ks => simp [hasSubstr, startsKw] at h
  | cons a as ih =>
      simp only [hasSubstr, Bool.or_eq_true] at h
      rcases h with h | h
      · exact startsKw_subset kw (a :: as) h
      · intro c hc; exact List.mem_cons.mpr (Or.inr (ih h c hc))

theorem toLower_whitespace (c : Char) (h : c.isWhitespace = true) :
    (Char.toLower c).isWhitespace = true := by
  simp only [Char.isWhitespace, Bool.or_eq_true, decide_eq_true_eq] at h
  rcases h with ((h | h) | h) | h <;> subst h <;> decide

/-- Every keyword in the taxonomy contains a non-whitespace character. -/
theorem taxonomy_kw_nonws :
    ∀ p ∈ sectionCats "LR" ++ sectionCats "RC", ∀ kw ∈ p.2,
      kw.data.any (fun c => !c.isWhitespace) = true := by decide

theorem classifyIn_none_of_ws (cats : List (String × List String)) (s : String)
    (hws : ∀ c ∈ s.data, c.isWhitespace = true)
    (hkw : ∀ p ∈ cats, ∀ kw ∈ p.2, kw.data.any (fun c => !c.isWhitespace) = true) :
    classifyIn cats (lowerStr s) = none := by
  induction cats with
  | nil => rfl
  | cons p rest ih =>
      have hp : (p.2.any (fun kw => kwMatch kw (lowerStr s))) = false := by
        by_contra hc
        simp only [Bool.not_eq_false, List.any_eq_true] at hc
        obtain ⟨kw, hkwm, hmatch⟩ := hc
        obtain ⟨c, hck, hcnw⟩ := List.any_eq_true.mp
          (hkw p (List.mem_cons_self p rest) kw hkwm)
        have hcl : c ∈ (lowerStr s).data := hasSubstr_subset _ _ hmatch c hck
        have : c.isWhitespace = true := by
          simp only [lowerStr, List.mem_map] at hcl
          obtain ⟨c0, hc0, hc0e⟩ := hcl
          exact hc0e ▸ toLower_whitespace c0 (hws c0 hc0)
        simp [this] at hcnw
      simp only [classifyIn, hp, Bool.false_eq_true, if_false]
      exact ih (fun q hq => hkw q (List.mem_cons_of_mem p hq))

/-- C1: `classify_question` lower-cases the text and scans LR categories then
RC categories in declared order, returning the label of the first category
one of whose keywords occurs as a substring of the lower-cased text (so a
text with both "strengthen" and "weaken" returns "Strengthen"); with no
match anywhere — in particular on empty or whitespace-only text — it
returns "Unknown". -/
theorem classify_question_correct :
    (∀ text, classify_question text = classifySpec text) ∧
    classify_question "This would both strengthen and weaken the argument" = "Strengthen" ∧
    (∀ text, (∀ c ∈ text.data, c.isWhitespace = true) →
      classify_question text = "Unknown") ∧
    classify_question "" = "Unknown" := by
  refine ⟨?_, by decide, ?_, by decide⟩
  · intro text
    simp only [classify_question, classifySpec]
    rw [classifyIn_eq_find, classifyIn_eq_find, List.find?_append]
    cases (sectionCats "LR").find? (fun p => p.2.any (fun kw => kwMatch kw (lowerStr text))) with
    | none =>
        cases (sectionCats "RC").find? (fun p => p.2.any (fun kw => kwMatch kw (lowerStr text))) with
        | none => rfl
        | some p => rfl
    | some p => rfl
  · intro text hws
    simp only [classify_question]
    rw [classifyIn_none_of_ws _ text hws
        (fun p hp => taxonomy_kw_nonws p (List.mem_append.mpr (Or.inl hp))),
      classifyIn_none_of_ws _ text hws
        (fun p hp => taxonomy_kw_nonws p (List.mem_append.mpr (Or.inr hp)))]

/-- Witness for C1 at concrete inputs. -/
theorem classify_question_correct_witness :
    classify_question " \t\n" = "Unknown" ∧
    classify_question "tone of the passage" = classifySpec "tone of the passage" :=
  ⟨classify_question_correct.2.2.1 " \t\n" (by decide),
   classify_question_correct.1 "tone of the passage"⟩

theorem perm_getD_cons_eraseIdx {α : Type} (l : List α) (i : Nat) (d : α)
    (h : i < l.length) : l.Perm (l.getD i d :: l.eraseIdx i) := by
  induction l generalizing i with
  | nil => cases h
  | cons x xs ih =>
      cases i with
      | zero => simp
      | succ j =>
          have hj : j < xs.length := Nat.lt_of_succ_lt_succ h
          have h1 : (x :: xs).Perm (x :: (xs.getD j d :: xs.eraseIdx j)) :=
            (ih j hj).cons x
          have h2 : (x :: (xs.getD j d :: xs.eraseIdx j)).Perm
              (xs.getD j d :: x :: xs.eraseIdx j) :=
            List.Perm.swap (xs.getD j d) x (xs.eraseIdx j)
          exact h1.trans h2

theorem sample_length {α : Type} (k : Nat) (l : List α) (g : Nat) :
    (sample l k g).1.length = min k l.length := by
  induction k generalizing l g with
  | zero => simp [sample]
  | succ k ih =>
      cases l with
      | nil => simp [sample]
      | cons x xs =>
          have hi : (lcgNext g).1 % (xs.length + 1) < xs.length + 1 :=
            Nat.mod_lt (lcgNext g).1 (Nat.succ_pos xs.length)
          have hlen : ((x :: xs).eraseIdx ((lcgNext g).1 % (xs.length + 1))).length
              = xs.length := by
            rw [List.length_eraseIdx]
            simp [hi]
          simp only [sample, List.length_cons, ih, hlen]
          omega

theorem sample_subperm {α : Type} (k : Nat) (l : List α) (g : Nat) :
    (sample l k g).1.Subperm l := by
  induction k generalizing l g with
  | zero => simp [sample]
  | succ k ih =>
      cases l with
      | nil => simp [sample]
      | cons x xs =>
          have hi : (lcgNext g).1 % (xs.length + 1) < (x :: xs).length := by
            simpa using Nat.mod_lt (lcgNext g).1 (Nat.succ_pos xs.length)
          set i := (lcgNext g).1 % (xs.length + 1) with hidef
          have hperm : (x :: xs).Perm ((x :: xs).getD i x :: (x :: xs).eraseIdx i) :=
            perm_getD_cons_eraseIdx (x :: xs) i x (by simpa using hi)
          have hrest : (sample ((x :: xs).eraseIdx i) k (lcgNext g).2).1.Subperm
              ((x :: xs).eraseIdx i) := ih _ _
          have hcons : ((x :: xs).getD i x :: (sample ((x :: xs).eraseIdx i) k (lcgNext g).2).1).Subperm
              ((x :: xs).getD i x :: (x :: xs).eraseIdx i) :=
            (List.subperm_cons _).mpr hrest
          have := hcons.trans hperm.symm.subperm
          simpa [sample] using this

theorem subperm_nodup {α : Type} {l₁ l₂ : List α} (h : l₁.Subperm l₂)
    (h2 : l₂.Nodup) : l₁.Nodup := by
  obtain ⟨l, hp, hs⟩ := h
  exact hp.nodup_iff.mp (List.Nodup.sublist hs h2)

theorem sample_nodup {α : Type} (k : Nat) (l : List α) (g : Nat)
    (h : l.Nodup) : (sample l k g).1.Nodup :=
  subperm_nodup (sample_subperm k l g) h

theorem sample_subset {α : Type} (k : Nat) (l : List α) (g : Nat) :
    ∀ a ∈ (sample l k g).1, a ∈ l :=
  fun _ ha => (sample_subperm k l g).subset ha

theorem sample_perm_of_le {α : Type} (k : Nat) (l : List α) (g : Nat)
    (h : l.length ≤ k) : (sample l k g).1.Perm l := by
  refine (sample_subperm k l g).perm_of_length_le ?_
  rw [sample_length]
  omega

theorem shuffle_perm {α : Type} (l : List α) (g : Nat) :
    (shuffle l g).1.Perm l :=
  sample_perm_of_le l.length l g (Nat.le_refl _)

theorem foldl_bump_eq (extra : List String) (counts : List (String × Nat)) :
    extra.foldl bump counts
      = counts.map (fun p => (p.1, p.2 + extra.count p.1)) := by
  induction extra generalizing counts with
  | nil => simp [List.count_nil]
  | cons e es ih =>
      rw [List.foldl_cons, ih, bump, List.map_map]
      apply List.map_congr_left
      intro p _
      by_cases h : p.1 = e
      · simp only [Function.comp, h, beq_self_eq_true, if_pos, List.count_cons,
          beq_iff_eq, if_pos rfl]
        exact congrArg (fun n => (e, n)) (by omega)
      · have hb : (p.1 == e) = false := by simp [h]
        have hb2 : (e == p.1) = false := by
          simp only [beq_eq_false_iff_ne, ne_eq]
          exact fun he => h he.symm
        simp [Function.comp, hb, List.count_cons, hb2]

theorem sum_map_add_split {α : Type} (l : List α) (f h : α → Nat) :
    (l.map (fun x => f x + h x)).sum = (l.map f).sum + (l.map h).sum := by
  induction l with
  | nil => rfl
  | cons x xs ih =>
      simp only [List.map_cons, List.sum_cons, ih]
      omega

theorem sum_map_const {α : Type} (l : List α) (c : Nat) :
    (l.map (fun _ => c)).sum = l.length * c := by
  induction l with
  | nil => simp
  | cons x xs ih =>
      simp only [List.map_cons, List.sum_cons, ih, List.length_cons]
      ring

theorem sum_ind_eq_count (l : List String) (e : String) :
    (l.map (fun t => if (e == t) = true then 1 else 0)).sum = l.count e := by
  induction l with
  | nil => simp
  | cons x xs ih =>
      simp only [List.map_cons, List.sum_cons, ih, List.count_cons]
      by_cases h : e = x
      · subst h; simp [Nat.add_comm]
      · have h1 : (e == x) = false := by simp [h]
        have h2 : (x == e) = false := by
          simp only [beq_eq_false_iff_ne, ne_eq]
          exact fun he => h he.symm
        simp [h1, h2]

theorem sum_count_all (types extra : List String) (hn : types.Nodup)
    (hsub : ∀ e ∈ extra, e ∈ types) :
    (types.map (fun t => extra.count t)).sum = extra.length := by
  induction extra with
  | nil => simp [List.count_nil]
  | cons e es ih =>
      have he : e ∈ types := hsub e (List.mem_cons_self e es)
      have hsub2 : ∀ x ∈ es, x ∈ types :=
        fun x hx => hsub x (List.mem_cons_of_mem e hx)
      have step1 : (types.map (fun t => (e :: es).count t)).sum
          = (types.map (fun t => es.count t + if (e == t) = true then 1 else 0)).sum := by
        apply congrArg
        apply List.map_congr_left
        intro t _
        rw [List.count_cons]
      rw [step1, sum_map_add_split, ih hsub2, sum_ind_eq_count,
        List.count_eq_one_of_mem hn he, List.length_cons]

theorem allocCounts_closed (types : List String) (total g : Nat) :
    (allocCounts types total g).1
      = types.map (fun t =>
          (t, total / types.length
            + (sample types (total % types.length) g).1.count t)) := by
  simp only [allocCounts]
  rw [foldl_bump_eq, List.map_map]
  apply List.map_congr_left
  intro t _
  simp [Function.comp]

theorem allocCounts_sum (types : List String) (total g : Nat)
    (hn : types.Nodup) (hne : 0 < types.length) :
    sumCounts (allocCounts types total g).1 = total := by
  have hrem : total % types.length < types.length := Nat.mod_lt _ hne
  rw [allocCounts_closed, sumCounts, List.map_map]
  have step1 : (types.map (fun t =>
      (Prod.snd ∘ fun t => (t, total / types.length
        + (sample types (total % types.length) g).1.count t)) t)).sum
      = (types.map (fun t => total / types.length
        + (sample types (total % types.length) g).1.count t)).sum := by
    apply congrArg; apply List.map_congr_left; intro t _; rfl
  rw [step1, sum_map_add_split, sum_map_const,
    sum_count_all types _ hn (sample_subset _ _ _), sample_length,
    Nat.min_eq_left (Nat.le_of_lt hrem), Nat.div_add_mod]

theorem sectionTypes_nodup (sec : String) (hsec : sec = "LR" ∨ sec = "RC") :
    (sectionTypes sec).Nodup := by
  rcases hsec with rfl | rfl <;> decide

theorem sectionTypes_pos (sec : String) (hsec : sec = "LR" ∨ sec = "RC") :
    0 < (sectionTypes sec).length := by
  rcases hsec with rfl | rfl <;> decide

theorem length_filter_mem (types extra : List String) (hn : types.Nodup)
    (hen : extra.Nodup) (hsub : ∀ e ∈ extra, e ∈ types) :
    (types.filter (fun t => decide (t ∈ extra))).length = extra.length := by
  have hperm : (types.filter (fun t => decide (t ∈ extra))).Perm extra := by
    rw [List.perm_iff_count]
    intro a
    by_cases ha : a ∈ extra
    · rw [List.count_filter (by simpa using ha),
        List.count_eq_one_of_mem hn (hsub a ha),
        List.count_eq_one_of_mem hen ha]
    · have h1 : a ∉ types.filter (fun t => decide (t ∈ extra)) := by
        intro hmem
        exact ha (by simpa using (List.mem_filter.mp hmem).2)
      rw [List.count_eq_zero_of_not_mem h1, List.count_eq_zero_of_not_mem ha]
  exact hperm.length_eq

/-- C2: for a section of the structure, composition computes
`base = total / n` and `rem = total % n` over the section's `n` categories,
gives every category `base`, and bumps by one exactly the `rem` categories
drawn without replacement from the full category list; the resulting
allocation always sums to the section's target.  (`pickSection` feeds
`allocCounts` straight into the selection loop.) -/
theorem allocation_base_remainder (sec : String) (total g : Nat)
    (hsec : sec = "LR" ∨ sec = "RC") :
    (sample (sectionTypes sec) (total % (sectionTypes sec).length) g).1.Nodup ∧
    (sample (sectionTypes sec) (total % (sectionTypes sec).length) g).1.length
        = total % (sectionTypes sec).length ∧
    (∀ e ∈ (sample (sectionTypes sec) (total % (sectionTypes sec).length) g).1,
        e ∈ sectionTypes sec) ∧
    ((allocCounts (sectionTypes sec) total g).1
        = (sectionTypes sec).map (fun t =>
            (t, total / (sectionTypes sec).length
              + (sample (sectionTypes sec)
                  (total % (sectionTypes sec).length) g).1.count t))) ∧
    (∀ p ∈ (allocCounts (sectionTypes sec) total g).1,
        p.2 = total / (sectionTypes sec).length
          ∨ p.2 = total / (sectionTypes sec).length + 1) ∧
    (((allocCounts (sectionTypes sec) total g).1.filter
        (fun p => p.2 == total / (sectionTypes sec).length + 1)).length
        = total % (sectionTypes sec).length) ∧
    sumCounts (allocCounts (sectionTypes sec) total g).1 = total := by
  have hn := sectionTypes_nodup sec hsec
  have hne := sectionTypes_pos sec hsec
  have hrem : total % (sectionTypes sec).length < (sectionTypes sec).length :=
    Nat.mod_lt _ hne
  have hen : (sample (sectionTypes sec) (total % (sectionTypes sec).length) g).1.Nodup :=
    sample_nodup _ _ _ hn
  have hsub := sample_subset (total % (sectionTypes sec).length) (sectionTypes sec) g
  refine ⟨hen, ?_, hsub, allocCounts_closed _ _ _, ?_, ?_, allocCounts_sum _ _ _ hn hne⟩
  · rw [sample_length]
    exact Nat.min_eq_left (Nat.le_of_lt hrem)
  · intro p hp
    rw [allocCounts_closed] at hp
    obtain ⟨t, ht, rfl⟩ := List.mem_map.mp hp
    by_cases hte : t ∈ (sample (sectionTypes sec) (total % (sectionTypes sec).length) g).1
    · right
      rw [List.count_eq_one_of_mem hen hte]
    · left
      rw [List.count_eq_zero_of_not_mem hte]
      simp
  · rw [allocCounts_closed, List.filter_map]
    set extra := (sample (sectionTypes sec) (total % (sectionTypes sec).length) g).1
      with hextra
    have hcong : (sectionTypes sec).filter
        ((fun p : String × Nat => p.2 == total / (sectionTypes sec).length + 1)
          ∘ (fun t => (t, total / (sectionTypes sec).length + extra.count t)))
        = (sectionTypes sec).filter (fun t => decide (t ∈ extra)) := by
      apply List.filter_congr
      intro t _
      by_cases hte : t ∈ extra
      · have h1 : List.count t extra = 1 := List.count_eq_one_of_mem hen hte
        simp [Function.comp, h1, hte]
      · have h0 : List.count t extra = 0 := List.count_eq_zero_of_not_mem hte
        have h2 : (total / (sectionTypes sec).length + 0
            == total / (sectionTypes sec).length + 1) = false := by
          simp only [beq_eq_false_iff_ne, ne_eq]
          omega
        simp [Function.comp, h0, h2, hte]
    rw [hcong]
    rw [List.length_map]
    rw [length_filter_mem _ _ hn hen hsub]
    rw [hextra, sample_length]
    exact Nat.min_eq_left (Nat.le_of_lt hrem)

/-- Witness for C2 at a concrete section, target and seed. -/
theorem allocation_base_remainder_witness :
    sumCounts (allocCounts (sectionTypes "LR") 10 3).1 = 10 ∧
    ((allocCounts (sectionTypes "LR") 10 3).1.filter
        (fun p => p.2 == 10 / (sectionTypes "LR").length + 1)).length
      = 10 % (sectionTypes "LR").length :=
  ⟨(allocation_base_remainder "LR" 10 3 (Or.inl rfl)).2.2.2.2.2.2,
   (allocation_base_remainder "LR" 10 3 (Or.inl rfl)).2.2.2.2.2.1⟩

theorem pickCategory_length (pool : List QuestionRecord) (qtype : String)
    (cnt g : Nat) :
    (pickCategory pool qtype cnt g).1.length
      = min cnt (pool.filter (fun q => q.type == qtype)).length := by
  simp only [pickCategory]
  rw [sample_length]
  omega

theorem pickCategory_types (pool : List QuestionRecord) (qtype : String)
    (cnt g : Nat) :
    ∀ q ∈ (pickCategory pool qtype cnt g).1, q.type = qtype := by
  intro q hq
  simp only [pickCategory] at hq
  have := sample_subset _ _ _ q hq
  exact beq_iff_eq.mp (List.mem_filter.mp this).2

/-- C3: for one category of the selection loop, a shortage
(fewer candidates than the allocated count) emits exactly the warning naming
the category, the needed count and the available count, and takes all
available candidates; with enough candidates no warning is emitted and
exactly the allocated count is selected without replacement.  Either way the
function returns normally. -/
theorem pickCategory_shortage_behaviour (pool : List QuestionRecord)
    (qtype : String) (cnt g : Nat) :
    ((pool.filter (fun q => q.type == qtype)).length < cnt →
        (pickCategory pool qtype cnt g).2.1
            = [shortageWarning qtype cnt
                (pool.filter (fun q => q.type == qtype)).length] ∧
        (pickCategory pool qtype cnt g).1.Perm
            (pool.filter (fun q => q.type == qtype))) ∧
    (cnt ≤ (pool.filter (fun q => q.type == qtype)).length →
        (pickCategory pool qtype cnt g).2.1 = [] ∧
        (pickCategory pool qtype cnt g).1.length = cnt ∧
        (pickCategory pool qtype cnt g).1.Subperm
            (pool.filter (fun q => q.type == qtype))) := by
  constructor
  · intro h
    constructor
    · simp only [pickCategory]
      rw [if_pos h]
    · simp only [pickCategory]
      exact sample_perm_of_le _ _ _ (by omega)
  · intro h
    refine ⟨?_, ?_, ?_⟩
    · simp only [pickCategory]
      rw [if_neg (by omega)]
    · rw [pickCategory_length]
      omega
    · simp only [pickCategory]
      exact sample_subperm _ _ _

/-- Witness for C3: one-record pool, shortage at count 2, fulfilment at
count 1. -/
theorem pickCategory_shortage_behaviour_witness :
    (pickCategory [⟨"q1", "Weaken", "s"⟩] "Weaken" 2 0).2.1
        = [shortageWarning "Weaken" 2 1] ∧
    (pickCategory [⟨"q1", "Weaken", "s"⟩] "Weaken" 1 0).2.1 = [] ∧
    (pickCategory [⟨"q1", "Weaken", "s"⟩] "Weaken" 1 0).1.length = 1 :=
  ⟨((pickCategory_shortage_behaviour [⟨"q1", "Weaken", "s"⟩] "Weaken" 2 0).1
      (by decide)).1,
   ((pickCategory_shortage_behaviour [⟨"q1", "Weaken", "s"⟩] "Weaken" 1 0).2
      (by decide)).1,
   ((pickCategory_shortage_behaviour [⟨"q1", "Weaken", "s"⟩] "Weaken" 1 0).2
      (by decide)).2.1⟩

theorem pickCounts_length_le (pool : List QuestionRecord)
    (counts : List (String × Nat)) (g : Nat) :
    (pickCounts pool counts g).1.length ≤ sumCounts counts := by
  induction counts generalizing g with
  | nil => simp [pickCounts, sumCounts]
  | cons tc rest ih =>
      simp only [pickCounts, List.length_append]
      have h1 : (pickCategory pool tc.1 tc.2 g).1.length ≤ tc.2 := by
        rw [pickCategory_length]
        omega
      have h2 := ih (pickCategory pool tc.1 tc.2 g).2.2
      simp only [sumCounts, List.map_cons, List.sum_cons] at *
      omega

/-- C4: per-section, the number of selected questions never exceeds the
section's target (for any bank and seed), and over a whole structure the
composed exam never exceeds the sum of the targets; both selection loops
are total functions, so shortage never raises. -/
theorem selection_never_exceeds_target :
    (∀ bank sec total g, sec = "LR" ∨ sec = "RC" →
        (pickSection bank sec total g).1.length ≤ total) ∧
    (∀ struct bank g, (∀ st ∈ struct, st.1 = "LR" ∨ st.1 = "RC") →
        (compose struct bank g).1.length
          ≤ (struct.map (fun st => st.2)).sum) := by
  have hsec : ∀ bank sec total g, sec = "LR" ∨ sec = "RC" →
      (pickSection bank sec total g).1.length ≤ total := by
    intro bank sec total g hs
    have hn := sectionTypes_nodup sec hs
    have hne := sectionTypes_pos sec hs
    have hsum := allocCounts_sum (sectionTypes sec) total g hn hne
    simp only [pickSection]
    exact (pickCounts_length_le _ _ _).trans (le_of_eq hsum)
  refine ⟨hsec, ?_⟩
  intro struct bank g hall
  have hlen : (compose struct bank g).1.length
      = (composeSelected struct bank g).1.length := by
    simp only [compose]
    exact (shuffle_perm _ _).length_eq
  rw [hlen]
  clear hlen
  induction struct generalizing g with
  | nil => simp [composeSelected]
  | cons st rest ih =>
      simp only [composeSelected, List.length_append, List.map_cons,
        List.sum_cons]
      have h1 := hsec bank st.1 st.2 g (hall st (List.mem_cons_self st rest))
      have h2 := ih (pickSection bank st.1 st.2 g).2.2
        (fun x hx => hall x (List.mem_cons_of_mem st hx))
      omega

/-- Witness for C4 at concrete inputs. -/
theorem selection_never_exceeds_target_witness :
    (pickSection [⟨"q1", "Weaken", "s"⟩] "LR" 5 0).1.length ≤ 5 ∧
    (compose [("LR", 3), ("RC", 2)] [⟨"q1", "Weaken", "s"⟩] 0).1.length
      ≤ ([("LR", 3), ("RC", 2)].map
          (fun st : String × Nat => st.2)).sum :=
  ⟨selection_never_exceeds_target.1 [⟨"q1", "Weaken", "s"⟩] "LR" 5 0
      (Or.inl rfl),
   selection_never_exceeds_target.2 [("LR", 3), ("RC", 2)]
      [⟨"q1", "Weaken", "s"⟩] 0 (by decide)⟩

theorem pickCounts_length_eq (pool : List QuestionRecord)
    (counts : List (String × Nat)) (g : Nat) :
    (pickCounts pool counts g).1.length = (counts.map (minAvail pool)).sum := by
  induction counts generalizing g with
  | nil => simp [pickCounts]
  | cons tc rest ih =>
      simp only [pickCounts, List.length_append, List.map_cons, List.sum_cons]
      rw [pickCategory_length, ih]
      rfl

theorem pickCounts_filter_len (pool : List QuestionRecord)
    (counts : List (String × Nat)) (g : Nat) (c : String) :
    ((pickCounts pool counts g).1.filter (fun q => q.type == c)).length
      = ((counts.filter (fun tc => tc.1 == c)).map (minAvail pool)).sum := by
  induction counts generalizing g with
  | nil => simp [pickCounts]
  | cons tc rest ih =>
      simp only [pickCounts, List.filter_append, List.length_append,
        List.filter_cons]
      by_cases h : tc.1 = c
      · have hblock : (pickCategory pool tc.1 tc.2 g).1.filter
            (fun q => q.type == c) = (pickCategory pool tc.1 tc.2 g).1 := by
          rw [List.filter_eq_self]
          intro q hq
          rw [pickCategory_types pool tc.1 tc.2 g q hq, h]
          exact beq_self_eq_true c
        have hcond : (tc.1 == c) = true := by simp [h]
        rw [hblock, hcond]
        simp only [if_pos, List.map_cons, List.sum_cons]
        rw [pickCategory_length, ih]
        simp [minAvail]
      · have hblock : (pickCategory pool tc.1 tc.2 g).1.filter
            (fun q => q.type == c) = [] := by
          rw [List.filter_eq_nil_iff]
          intro q hq
          rw [pickCategory_types pool tc.1 tc.2 g q hq]
          simp [h]
        have hcond : (tc.1 == c) = false := by simp [h]
        rw [hblock, hcond]
        simp only [List.length_nil, Nat.zero_add, if_neg Bool.false_ne_true]
        exact ih _

theorem filter_section_filter (bank : List QuestionRecord)
    (types : List String) (t : String) (ht : t ∈ types) :
    (bank.filter (fun q => types.contains q.type)).filter
        (fun q => q.type == t)
      = bank.filter (fun q => q.type == t) := by
  rw [List.filter_filter]
  apply List.filter_congr
  intro q _
  by_cases h : q.type = t
  · have hc : types.contains q.type = true := by
      rw [h]
      exact List.elem_eq_true_of_mem ht
    simp [h, hc, ht]
  · simp [h]

theorem filter_key_map_one (types : List String) (t : String) (v : Nat)
    (hn : types.Nodup) (ht : t ∈ types) :
    (types.map (fun s => (s, v))).filter (fun tc => tc.1 == t) = [(t, v)] := by
  induction types with
  | nil => cases ht
  | cons x xs ih =>
      rw [List.map_cons, List.filter_cons]
      have hx : x ∉ xs := (List.nodup_cons.mp hn).1
      rcases List.mem_cons.mp ht with rfl | hmem
      · have htail : (xs.map (fun s => (s, v))).filter
            (fun tc => tc.1 == t) = [] := by
          rw [List.filter_eq_nil_iff]
          intro a ha
          obtain ⟨s, hs, rfl⟩ := List.mem_map.mp ha
          simp only [beq_iff_eq]
          exact fun hst => hx (hst ▸ hs)
        simp [htail]
      · have hxt : (x == t) = false := by
          simp only [beq_eq_false_iff_ne, ne_eq]
          exact fun he => hx (he ▸ hmem)
        simp only [hxt, if_neg Bool.false_ne_true]
        exact ih (List.nodup_cons.mp hn).2 hmem

/-- C6 (amended): the code's LR taxonomy has 9 categories, so `{LR: 9}`
allocates base = 1 and remainder = 0; with at least 3 candidate records in
each LR category, the composed exam contains exactly 9 LR questions, each
category contributing exactly 1. -/
theorem compose_lr9 (bank : List QuestionRecord) (g : Nat)
    (h : ∀ t ∈ sectionTypes "LR",
        3 ≤ (bank.filter (fun q => q.type == t)).length) :
    (compose [("LR", 9)] bank g).1.length = 9 ∧
    ∀ t ∈ sectionTypes "LR",
      ((compose [("LR", 9)] bank g).1.filter
          (fun q => q.type == t)).length = 1 := by
  have hn : (sectionTypes "LR").Nodup := by decide
  have halloc : allocCounts (sectionTypes "LR") 9 g
      = ((sectionTypes "LR").map (fun t => (t, 1)), g) := rfl
  set pool := bank.filter (fun q => (sectionTypes "LR").contains q.type)
    with hpool
  have hone : ∀ t ∈ sectionTypes "LR", minAvail pool (t, 1) = 1 := by
    intro t ht
    have hf := filter_section_filter bank (sectionTypes "LR") t ht
    have h3 := h t ht
    simp only [minAvail, hpool, hf]
    omega
  have hps : pickSection bank "LR" 9 g
      = pickCounts pool ((sectionTypes "LR").map (fun t => (t, 1))) g := by
    simp only [pickSection, halloc, hpool]
  have hlen : (pickSection bank "LR" 9 g).1.length = 9 := by
    have hmm : (List.map (minAvail pool ∘ fun t => (t, 1))
        (sectionTypes "LR")).sum
        = (List.map (fun _ : String => 1) (sectionTypes "LR")).sum := by
      apply congrArg
      apply List.map_congr_left
      intro t ht
      exact hone t ht
    rw [hps, pickCounts_length_eq, List.map_map, hmm, sum_map_const]
    decide
  have hfil : ∀ t ∈ sectionTypes "LR",
      ((pickSection bank "LR" 9 g).1.filter
          (fun q => q.type == t)).length = 1 := by
    intro t ht
    rw [hps, pickCounts_filter_len, filter_key_map_one _ _ _ hn ht]
    simp [hone t ht]
  have hperm : (compose [("LR", 9)] bank g).1.Perm
      (composeSelected [("LR", 9)] bank g).1 := by
    simp only [compose]
    exact shuffle_perm _ _
  have hc1 : (composeSelected [("LR", 9)] bank g).1
      = (pickSection bank "LR" 9 g).1 := by
    simp [composeSelected]
  constructor
  · rw [hperm.length_eq, hc1, hlen]
  · intro t ht
    rw [(hperm.filter (fun q => q.type == t)).length_eq, hc1, hfil t ht]

/-- C6 counterexample: the code's taxonomy has 9 LR categories, not 3, and
on a bank with 3 candidates in every LR category a `{LR: 9}` exam gives the
"Strengthen" category exactly 1 question, not 3. -/
theorem compose_lr9_counterexample :
    (sectionTypes "LR").length = 9 ∧ (sectionTypes "LR").length ≠ 3 ∧
    ((compose [("LR", 9)] bank27 0).1.filter
        (fun q => q.type == "Strengthen")).length = 1 ∧
    ((compose [("LR", 9)] bank27 0).1.filter
        (fun q => q.type == "Strengthen")).length ≠ 3 := by
  refine ⟨by decide, by decide, ?_, ?_⟩ <;> decide

/-- Witness for the amended C6 at a concrete bank and seed. -/
theorem compose_lr9_witness :
    (compose [("LR", 9)] bank27 5).1.length = 9 ∧
    ((compose [("LR", 9)] bank27 5).1.filter
        (fun q => q.type == "Inference")).length = 1 :=
  ⟨(compose_lr9 bank27 5 (by decide)).1,
   (compose_lr9 bank27 5 (by decide)).2 "Inference" (by decide)⟩

theorem filter_text_eq_one (bank : List QuestionRecord) (c : String)
    (hn : (bank.map (fun q => q.text)).Nodup)
    (hc : ∃ q ∈ bank, q.text = c) :
    (bank.filter (fun q => q.text == c)).length = 1 := by
  induction bank with
  | nil => simp at hc
  | cons b bs ih =>
      have hb : b.text ∉ bs.map (fun q => q.text) :=
        (List.nodup_cons.mp (by simpa using hn)).1
      rw [List.filter_cons]
      by_cases h : b.text = c
      · have htail : bs.filter (fun q => q.text == c) = [] := by
          rw [List.filter_eq_nil_iff]
          intro q hq
          simp only [beq_iff_eq]
          intro hqc
          exact hb (h ▸ hqc ▸ List.mem_map_of_mem (fun q => q.text) hq)
        simp [h, htail]
      · have hcond : (b.text == c) = false := by simp [h]
        rw [hcond]
        simp only [if_neg Bool.false_ne_true]
        apply ih (List.nodup_cons.mp (by simpa using hn)).2
        rcases hc with ⟨q, hq, hqc⟩
        rcases List.mem_cons.mp hq with rfl | hq2
        · exact absurd hqc h
        · exact ⟨q, hq2, hqc⟩

/-- C5: adding a record whose exact text is already present is a no-op
reported as a duplicate; a fresh text is appended; adding the same text
twice leaves exactly one record with that text and reports the second add
as a duplicate; and the no-two-records-share-a-text invariant is preserved
by every add. -/
theorem addEntry_dedup :
    (∀ bank e, (∃ q ∈ bank, q.text = e.text) → addEntry bank e = (bank, true)) ∧
    (∀ bank e, (¬∃ q ∈ bank, q.text = e.text) →
        addEntry bank e = (bank ++ [e], false)) ∧
    (∀ bank e1 e2, e1.text = e2.text →
        (bank.map (fun q => q.text)).Nodup →
        (addEntry (addEntry bank e1).1 e2).2 = true ∧
        (((addEntry (addEntry bank e1).1 e2).1.filter
            (fun q => q.text == e1.text)).length = 1)) ∧
    (∀ bank e, (bank.map (fun q => q.text)).Nodup →
        ((addEntry bank e).1.map (fun q => q.text)).Nodup) := by
  have hyes : ∀ bank (e : QuestionRecord), (∃ q ∈ bank, q.text = e.text) →
      addEntry bank e = (bank, true) := by
    intro bank e h
    have : bank.any (fun q => q.text == e.text) = true := by
      rcases h with ⟨q, hq, hqe⟩
      exact List.any_eq_true.mpr ⟨q, hq, beq_iff_eq.mpr hqe⟩
    simp [addEntry, this]
  have hno : ∀ bank (e : QuestionRecord), (¬∃ q ∈ bank, q.text = e.text) →
      addEntry bank e = (bank ++ [e], false) := by
    intro bank e h
    have : bank.any (fun q => q.text == e.text) = false := by
      rw [← Bool.not_eq_true, List.any_eq_true]
      intro hc
      rcases hc with ⟨q, hq, hqe⟩
      exact h ⟨q, hq, beq_iff_eq.mp hqe⟩
    simp [addEntry, this]
  refine ⟨hyes, hno, ?_, ?_⟩
  · intro bank e1 e2 he hn
    by_cases h : ∃ q ∈ bank, q.text = e1.text
    · rw [hyes bank e1 h]
      have h2 : ∃ q ∈ bank, q.text = e2.text := by
        rcases h with ⟨q, hq, hqe⟩
        exact ⟨q, hq, he ▸ hqe⟩
      rw [hyes bank e2 h2]
      exact ⟨rfl, filter_text_eq_one bank e1.text hn h⟩
    · rw [hno bank e1 h]
      have h2 : ∃ q ∈ bank ++ [e1], q.text = e2.text :=
        ⟨e1, List.mem_append.mpr (Or.inr (List.mem_singleton.mpr rfl)), he⟩
      rw [hyes (bank ++ [e1]) e2 h2]
      refine ⟨rfl, ?_⟩
      rw [List.filter_append]
      have hb : bank.filter (fun q => q.text == e1.text) = [] := by
        rw [List.filter_eq_nil_iff]
        intro q hq
        simp only [beq_iff_eq]
        exact fun hqe => h ⟨q, hq, hqe⟩
      rw [hb]
      simp
  · intro bank e hn
    by_cases h : ∃ q ∈ bank, q.text = e.text
    · rw [hyes bank e h]
      exact hn
    · rw [hno bank e h]
      rw [List.map_append]
      refine List.Nodup.append hn (by simp) ?_
      rw [List.map_singleton, List.disjoint_singleton]
      intro hc
      rcases List.mem_map.mp hc with ⟨q, hq, hqe⟩
      exact h ⟨q, hq, hqe⟩

/-- Witness for C5 at a concrete bank and records. -/
theorem addEntry_dedup_witness :
    addEntry [⟨"t1", "Weaken", "s"⟩] ⟨"t1", "Unknown", "u"⟩
        = ([⟨"t1", "Weaken", "s"⟩], true) ∧
    (addEntry (addEntry [] ⟨"t1", "Weaken", "s"⟩).1 ⟨"t1", "Unknown", "u"⟩).2
        = true ∧
    ((addEntry (addEntry [] ⟨"t1", "Weaken", "s"⟩).1
        ⟨"t1", "Unknown", "u"⟩).1.filter
          (fun q => q.text == "t1")).length = 1 :=
  ⟨addEntry_dedup.1 [⟨"t1", "Weaken", "s"⟩] ⟨"t1", "Unknown", "u"⟩ (by decide),
   (addEntry_dedup.2.2.1 [] ⟨"t1", "Weaken", "s"⟩ ⟨"t1", "Unknown", "u"⟩
      rfl (by decide)).1,
   (addEntry_dedup.2.2.1 [] ⟨"t1", "Weaken", "s"⟩ ⟨"t1", "Unknown", "u"⟩
      rfl (by decide)).2⟩

/-- C7 counterexample: a corrupt store loads as the empty bank, but the load
path emits no warning at all — the claim that the corruption "is logged as
a warning" is false of the code, which swallows `JSONDecodeError` silently.
-/
theorem loadBank_corrupt_no_warning :
    (loadBank StoreState.corrupt).1 = [] ∧
    (loadBank StoreState.corrupt).2 = [] :=
  ⟨rfl, rfl⟩

/-- C7 (amended): loading returns the empty bank whenever the store is
absent or not decodable, without raising; nothing is logged — the failure
is silent rather than warned about. -/
theorem loadBank_empty_on_bad (s : StoreState)
    (h : s = StoreState.absent ∨ s = StoreState.corrupt) :
    loadBank s = ([], []) := by
  rcases h with rfl | rfl <;> rfl

/-- Witness for the amended C7. -/
theorem loadBank_empty_on_bad_witness :
    loadBank StoreState.absent = ([], []) :=
  loadBank_empty_on_bad StoreState.absent (Or.inl rfl)

theorem decodeRecords_encode (bank : List QuestionRecord) :
    decodeRecords (bank.map encodeRecord) = some bank := by
  induction bank with
  | nil => rfl
  | cons q qs ih =>
      simp only [List.map_cons, decodeRecords, ih]
      rfl

/-- C8: saving the bank and loading it back reproduces exactly the same
records (so in particular the same set of text/type/source triples), and
the JSON document written for the bank decodes to exactly the bank. -/
theorem save_load_roundtrip (bank : List QuestionRecord) :
    (loadBank (save_bank bank)).1 = bank ∧
    decodeBank (encodeBank bank) = some bank :=
  ⟨rfl, decodeRecords_encode bank⟩

/-- C9: with the generator state made explicit, `generate_exam_text` is a
pure function of the seed, the bank and the structure: two runs with the
same seed and inputs return identical results. -/
theorem generate_exam_text_deterministic (struct : List (String × Nat))
    (bank : List QuestionRecord) (g : Nat)
    (r1 r2 : String × List String × Nat)
    (h1 : r1 = generate_exam_text struct bank g)
    (h2 : r2 = generate_exam_text struct bank g) : r1 = r2 :=
  h1.trans h2.symm

/-- Witness for C9 at a concrete seed, bank and structure. -/
theorem generate_exam_text_deterministic_witness :
    generate_exam_text [("LR", 2)] bank27 7
      = generate_exam_text [("LR", 2)] bank27 7 :=
  generate_exam_text_deterministic [("LR", 2)] bank27 7 _ _ rfl rfl

/-- C10: "Inference" is a category label of both the LR and the RC taxonomy,
so a record of that type is eligible for both sections, and with the bank
consisting of that one record, a {LR: 9, RC: 7} exam selects it twice —
composed exams are not duplicate-free across sections. -/
theorem inference_selected_twice :
    "Inference" ∈ sectionTypes "LR" ∧
    "Inference" ∈ sectionTypes "RC" ∧
    List.count infRec (compose [("LR", 9), ("RC", 7)] [infRec] 0).1 = 2 := by
  refine ⟨by decide, by decide, by decide⟩
